import Mathlib

/-!
Verification development for the CoolData configuration-language library
(Rust crate `cool`: `src/lexer.rs`, `src/parser.rs`, `src/lib.rs`).

The Rust code is shallowly embedded:

* machine integers become `Nat`/`ℤ` (the `i32` range check of
  `str::parse::<i32>` is explicit);
* `f32` values are modelled as exact rationals `ℚ` (decimal literals are
  read exactly; every float literal appearing in a settled claim is exactly
  representable in `f32`, so no behavioural difference arises from rounding);
* `io::Result` failures become explicit error values (`LexError`,
  `PError`, `FieldError`);
* a reached `unreachable!()` macro — a Rust panic — is modelled by the
  distinguished outcome `panicked`;
* the loops of `Tokenizer::tokenize` and of the recursive-descent parser
  are written with an explicit structural fuel parameter so that every
  function kernel-evaluates.  Each loop iteration of the Rust code consumes
  at least one character (resp. lives on a strictly shrinking token
  suffix), so the fuel supplied by the public wrappers
  (`content.length + 1` characters, `4 * tokens.length + 16` parser steps)
  can never run out; the `nofuel` outcome is unreachable from the wrappers.
-/

namespace Cool

/-! ## Tokens (src/lexer.rs, `TokenType`, `Loc`, `Token`) -/

/-- Token kinds, from `enum TokenType` in src/lexer.rs.  Numeric tokens
carry the literal text, conversion happens in the parser. -/
inductive TokenType where
  | Ident (val : String)
  | Equals
  | Str (val : String)
  | IntTok (val : String)
  | FloatTok (val : String)
  | LeftBrace
  | RightBrace
  | LeftBracket
  | RightBracket
  | Comma
  | Newline
deriving DecidableEq, Repr

/-- Location of a token in the form (col, line), from `struct Loc` —
the Rust tuple struct stores the column first. -/
structure Loc where
  col : Nat
  line : Nat
deriving DecidableEq, Repr

/-- A located token, from `struct Token(TokenType, Loc)`. -/
structure Token where
  tt : TokenType
  loc : Loc
deriving DecidableEq, Repr

/-- Lexer failures.  The Rust code returns `io::Error` values; this type
records their kind and the (line, column) data interpolated into the
message. -/
inductive LexError where
  | doublePeriod (line col : Nat)
  | unallowedNewline (line col : Nat)
  | unexpectedChar (c : Char) (line col : Nat)
  | endOfContent
deriving DecidableEq, Repr

/-! ## The scanner (src/lexer.rs, `Tokenizer`)

The helpers mirror `parse_number`, `parse_string` and `parse_ident`:
each is entered after the first character of the token has already been
consumed into `buf` (for strings: after the opening quote), and each
returns the token, the `col_delta + 1` value the Rust function returns,
and the unconsumed rest of the input. -/

/-- Loop of `Tokenizer::parse_number`: accumulate digits and at most one
period; a second period is an error reported at (`line`, `col`), the
scanner's recorded start of the literal. -/
def numLoop (line col : Nat) (isFloat : Bool) (buf : List Char) (colDelta : Nat) :
    List Char → Except LexError (Token × Nat × List Char)
  | [] =>
      .ok (⟨if isFloat then .FloatTok ⟨buf⟩ else .IntTok ⟨buf⟩, ⟨col, line⟩⟩,
        colDelta + 1, [])
  | c :: cs =>
      if c.isDigit || c = '.' then
        if c = '.' then
          if isFloat then
            .error (.doublePeriod line col)
          else
            numLoop line col true (buf ++ [c]) (colDelta + 1) cs
        else
          numLoop line col isFloat (buf ++ [c]) (colDelta + 1) cs
      else
        .ok (⟨if isFloat then .FloatTok ⟨buf⟩ else .IntTok ⟨buf⟩, ⟨col, line⟩⟩,
          colDelta + 1, c :: cs)

/-- Loop of `Tokenizer::parse_string`: accumulate characters up to the
closing quote; a raw newline is an error; running out of input while the
string is still open makes the final `consume()?` fail. -/
def strLoop (line col : Nat) (buf : List Char) (colDelta : Nat) :
    List Char → Except LexError (Token × Nat × List Char)
  | [] => .error .endOfContent
  | c :: cs =>
      if c = '"' then
        .ok (⟨.Str ⟨buf⟩, ⟨col, line⟩⟩, colDelta + 1, cs)
      else if c = '\n' then
        .error (.unallowedNewline line col)
      else
        strLoop line col (buf ++ [c]) (colDelta + 1) cs

/-- Loop of `Tokenizer::parse_ident`: accumulate alphabetic,
non-whitespace, non-`=` characters.  (`consume` cannot fail here, so no
error case is needed.) -/
def identLoop (line col : Nat) (buf : List Char) (colDelta : Nat) :
    List Char → Token × Nat × List Char
  | [] => (⟨.Ident ⟨buf⟩, ⟨col, line⟩⟩, colDelta + 1, [])
  | c :: cs =>
      if c.isAlpha && !c.isWhitespace && c ≠ '=' then
        identLoop line col (buf ++ [c]) (colDelta + 1) cs
      else
        (⟨.Ident ⟨buf⟩, ⟨col, line⟩⟩, colDelta + 1, c :: cs)

/-- Main loop of `Tokenizer::tokenize`.  Branch order follows the Rust
`if`/`else if` chain exactly; `acc` models the `tokens` vector (pushed in
reverse), `fuel` is a structural recursion budget (each iteration of the
Rust loop consumes at least one character, so `content.length + 1` steps
always suffice).  `Char.isAlpha`/`Char.isWhitespace` model Rust's
`is_alphabetic`/`is_whitespace`; they agree on all ASCII input. -/
def tokenizeLoop : Nat → Nat → Nat → List Token → List Char →
    Except LexError (List Token)
  | 0, _, _, _, _ => .error .endOfContent
  | _ + 1, _, _, acc, [] => .ok acc.reverse
  | fuel + 1, line, col, acc, c :: cs =>
      if c = '\n' then
        tokenizeLoop fuel (line + 1) 1 (⟨.Newline, ⟨1, line + 1⟩⟩ :: acc) cs
      else if c.isWhitespace then
        tokenizeLoop fuel line (col + 1) acc cs
      else if c.isDigit then
        match numLoop line col false [c] 0 cs with
        | .error e => .error e
        | .ok (t, d, rest) => tokenizeLoop fuel line (col + d + 1) (t :: acc) rest
      else if c.isAlpha then
        match identLoop line col [c] 0 cs with
        | (t, d, rest) => tokenizeLoop fuel line (col + d + 1) (t :: acc) rest
      else if c = '"' then
        match strLoop line col [] 0 cs with
        | .error e => .error e
        | .ok (t, d, rest) => tokenizeLoop fuel line (col + d + 1) (t :: acc) rest
      else if c = '{' then
        tokenizeLoop fuel line (col + 1) (⟨.LeftBrace, ⟨col, line⟩⟩ :: acc) cs
      else if c = '}' then
        tokenizeLoop fuel line (col + 1) (⟨.RightBrace, ⟨col, line⟩⟩ :: acc) cs
      else if c = '=' then
        tokenizeLoop fuel line (col + 1) (⟨.Equals, ⟨col, line⟩⟩ :: acc) cs
      else if c = '[' then
        tokenizeLoop fuel line (col + 1) (⟨.LeftBracket, ⟨col, line⟩⟩ :: acc) cs
      else if c = ']' then
        tokenizeLoop fuel line (col + 1) (⟨.RightBracket, ⟨col, line⟩⟩ :: acc) cs
      else if c = ',' then
        tokenizeLoop fuel line (col + 1) (⟨.Comma, ⟨col, line⟩⟩ :: acc) cs
      else
        .error (.unexpectedChar c line col)

/-- `Tokenizer::tokenize`, starting at line 1, column 1. -/
def tokenize (content : String) : Except LexError (List Token) :=
  tokenizeLoop (content.data.length + 1) 1 1 [] content.data

/-! ## The value model (src/parser.rs, `CoolDataType` and containers)

`CoolDataObject` wraps a `HashMap<String, CoolDataType>`; it is modelled
as an association list with unique keys in which `add_field` (HashMap
`insert`) replaces the value of a present key and otherwise appends.
`CoolDataList` wraps a `Vec` and is a plain list. -/

/-- The tagged value union, from `enum CoolDataType`.  `i32` is a range
checked `ℤ`, `f32` is modelled as an exact rational. -/
inductive CoolDataType where
  | IntV (n : ℤ)
  | FloatV (q : ℚ)
  | StrV (s : String)
  | ObjectV (fields : List (String × CoolDataType))
  | ListV (elems : List CoolDataType)
deriving Repr

abbrev CoolDataObject := List (String × CoolDataType)

/-- Field lookup of the backing `HashMap`. -/
def lookupField : CoolDataObject → String → Option CoolDataType
  | [], _ => none
  | p :: rest, name => if p.1 = name then some p.2 else lookupField rest name

/-- Value replacement for a present key (the `HashMap::insert` overwrite
case). -/
def replaceField : CoolDataObject → String → CoolDataType → CoolDataObject
  | [], _, _ => []
  | p :: rest, name, v =>
      if p.1 = name then (name, v) :: rest else p :: replaceField rest name v

/-- `CoolDataObject::add_field` (`HashMap::insert`): last writer wins for
a duplicate key; a fresh key is appended. -/
def addField (o : CoolDataObject) (name : String) (v : CoolDataType) : CoolDataObject :=
  if (lookupField o name).isSome then replaceField o name v else o ++ [(name, v)]

/-- Accessor failures of the value model (`io::Error` kind + message in
the Rust code). -/
inductive FieldError where
  | unknownField (name : String)
  | notType (name : String) (expected : String)
deriving DecidableEq, Repr

/-- `CoolDataObject::get_field`: lookup or `Unknown field` error. -/
def getField (o : CoolDataObject) (name : String) : Except FieldError CoolDataType :=
  match lookupField o name with
  | some v => .ok v
  | none => .error (.unknownField name)

/-- `CoolDataObject::get_string` (from the `impl_get!` macro): the field
must hold the `String` variant, no coercion. -/
def getString (o : CoolDataObject) (name : String) : Except FieldError String :=
  match getField o name with
  | .ok (.StrV s) => .ok s
  | .ok _ => .error (.notType name "String")
  | .error e => .error e

/-- `CoolDataObject::get_int` (from the `impl_get!` macro). -/
def getInt (o : CoolDataObject) (name : String) : Except FieldError ℤ :=
  match getField o name with
  | .ok (.IntV n) => .ok n
  | .ok _ => .error (.notType name "i32")
  | .error e => .error e

/-- Digit-string evaluation used to model `str::parse` on the all-digit
literals the scanner produces. -/
def digitsToNat (cs : List Char) : Nat :=
  cs.foldl (fun a c => 10 * a + (c.toNat - 48)) 0

/-- Modelled from `str::parse::<i32>` as used by `CoolDataType::int`:
on the scanner's literals (nonempty all-digit strings) it yields the
value when it fits in `i32`, and fails on overflow.  Sign forms are
unreachable from the scanner. -/
def intOfString (s : String) : Option ℤ :=
  if s.data ≠ [] ∧ s.data.all (·.isDigit) then
    if digitsToNat s.data ≤ 2147483647 then some (digitsToNat s.data) else none
  else none

/-- Modelled from `str::parse::<f32>` as used by `CoolDataType::float`,
restricted to the decimal shapes the scanner can produce
(`digits`, `digits.digits`, `digits.`); the decimal is read exactly into
`ℚ` (no `f32` rounding).  Exponent, sign and special forms are
unreachable from the scanner. -/
def floatOfString (s : String) : Option ℚ :=
  match s.data.span (·.isDigit) with
  | (ip, []) => if ip ≠ [] then some (digitsToNat ip) else none
  | (ip, c :: fp) =>
      if c = '.' ∧ fp.all (·.isDigit) ∧ (ip ≠ [] ∨ fp ≠ []) then
        some ((digitsToNat ip : ℚ) + (digitsToNat fp : ℚ) / (10 : ℚ) ^ fp.length)
      else none

/-! ## The parser (src/parser.rs, `Parser`) -/

/-- Parser failures, from the `io::Error` values built in `Parser`:
kind plus the data interpolated into the message.  The `got`/`loc`
arguments reproduce exactly what the Rust format strings interpolate
(which for the closing-brace checks is the token cloned at the top of
the loop, not the offending one). -/
inductive PError where
  | expectedEquals (got : TokenType) (loc : Loc)
  | expectedRBrace (got : TokenType) (loc : Loc)
  | expectedRBracket (got : TokenType) (loc : Loc)
  | unexpectedEofTok
  | invalidInt
  | invalidFloat
deriving DecidableEq, Repr

/-- Outcome of running a parser function: a value, a surfaced error, a
panic (a reached `unreachable!()`), or fuel exhaustion (unreachable for
the budgets supplied by `Parser.parse`). -/
inductive POut (α : Type) where
  | ok (a : α)
  | error (e : PError)
  | panicked
  | nofuel
deriving Repr

/-- Convert a numeric token's text, `CoolDataType::int`. -/
def intValue (v : String) : POut CoolDataType :=
  match intOfString v with
  | some n => .ok (.IntV n)
  | none => .error .invalidInt

/-- Convert a numeric token's text, `CoolDataType::float`. -/
def floatValue (v : String) : POut CoolDataType :=
  match floatOfString v with
  | some q => .ok (.FloatV q)
  | none => .error .invalidFloat

mutual

/-- `Parser::parse_list`: one unconditional `consume()?` (the caller's
`[` — or, via the extra consume in `parse_object`, the first element),
then the element loop. -/
def parseList : Nat → List Token → POut (List CoolDataType × List Token)
  | 0, _ => .nofuel
  | _ + 1, [] => .error .unexpectedEofTok
  | fuel + 1, _ :: ts => parseListLoop fuel [] ts

/-- The element loop of `Parser::parse_list`.  A `Comma` is consumed and
then falls through into the `match`, whose catch-all is `unreachable!()`
(the `continue` is commented out in the source), so a comma panics.
A nested list is pushed only if the token after it is a further `]`,
which is left unconsumed. -/
def parseListLoop : Nat → List CoolDataType → List Token →
    POut (List CoolDataType × List Token)
  | 0, _, _ => .nofuel
  | _ + 1, _, [] => .error .unexpectedEofTok
  | fuel + 1, out, t :: ts =>
      if t.tt = .RightBracket then
        .ok (out, ts)
      else
        match t.tt with
        | .Ident _ => .error (.expectedRBracket t.tt t.loc)
        | .LeftBrace =>
            match parseObjectLoop fuel [] ts with
            | .ok (obj, rest) =>
                match rest with
                | [] => .error .unexpectedEofTok
                | r :: rest2 =>
                    if r.tt = .RightBrace then
                      parseListLoop fuel (out ++ [.ObjectV obj]) rest2
                    else
                      .error (.expectedRBrace t.tt t.loc)
            | .error e => .error e
            | .panicked => .panicked
            | .nofuel => .nofuel
        | .LeftBracket =>
            match parseList fuel (t :: ts) with
            | .ok (l, rest) =>
                match rest with
                | r :: rest2 =>
                    if r.tt = .RightBracket then
                      parseListLoop fuel (out ++ [.ListV l]) (r :: rest2)
                    else
                      .error (.expectedRBracket t.tt t.loc)
                | [] => .error (.expectedRBracket t.tt t.loc)
            | .error e => .error e
            | .panicked => .panicked
            | .nofuel => .nofuel
        | .IntTok v =>
            match intValue v with
            | .ok d => parseListLoop fuel (out ++ [d]) ts
            | .error e => .error e
            | .panicked => .panicked
            | .nofuel => .nofuel
        | .FloatTok v =>
            match floatValue v with
            | .ok d => parseListLoop fuel (out ++ [d]) ts
            | .error e => .error e
            | .panicked => .panicked
            | .nofuel => .nofuel
        | .Str v => parseListLoop fuel (out ++ [.StrV v]) ts
        | .Newline => parseListLoop fuel out ts
        | _ => .panicked

/-- `Parser::parse_object` (the function is its loop; the surrounding
braces are handled by the caller).  Stops, without consuming, at a
`RightBrace` or at the end of the tokens. -/
def parseObjectLoop : Nat → CoolDataObject → List Token →
    POut (CoolDataObject × List Token)
  | 0, _, _ => .nofuel
  | _ + 1, out, [] => .ok (out, [])
  | fuel + 1, out, t :: ts =>
      if t.tt = .RightBrace then
        .ok (out, t :: ts)
      else
        match t.tt with
        | .Ident name =>
            match ts with
            | [] => .panicked
            | u :: ts2 =>
                if u.tt = .Equals then
                  match ts2 with
                  | [] => .error .unexpectedEofTok
                  | w :: ts3 =>
                      match w.tt with
                      | .LeftBrace =>
                          match parseObjectLoop fuel [] ts3 with
                          | .ok (obj, rest) =>
                              match rest with
                              | r :: rest2 =>
                                  if r.tt = .RightBrace then
                                    parseObjectLoop fuel
                                      (addField out name (.ObjectV obj)) rest2
                                  else
                                    .error (.expectedRBrace t.tt t.loc)
                              | [] => .error (.expectedRBrace t.tt t.loc)
                          | .error e => .error e
                          | .panicked => .panicked
                          | .nofuel => .nofuel
                      | .LeftBracket =>
                          match parseList fuel ts3 with
                          | .ok (l, rest) =>
                              parseObjectLoop fuel (addField out name (.ListV l)) rest
                          | .error e => .error e
                          | .panicked => .panicked
                          | .nofuel => .nofuel
                      | .IntTok v =>
                          match intValue v with
                          | .ok d => parseObjectLoop fuel (addField out name d) ts3
                          | .error e => .error e
                          | .panicked => .panicked
                          | .nofuel => .nofuel
                      | .FloatTok v =>
                          match floatValue v with
                          | .ok d => parseObjectLoop fuel (addField out name d) ts3
                          | .error e => .error e
                          | .panicked => .panicked
                          | .nofuel => .nofuel
                      | .Str v =>
                          parseObjectLoop fuel (addField out name (.StrV v)) ts3
                      | _ => .panicked
                else
                  .error (.expectedEquals u.tt u.loc)
        | .Newline => parseObjectLoop fuel out ts
        | _ => .panicked

end

/-- Loop of `Parser::parse` (top level).  Differences from
`parseObjectLoop`, all faithful to the source: the loop runs until the
tokens end (a stray `RightBrace` reaches the catch-all `unreachable!()`),
a nested object's closing brace is checked with `consume()` and then one
further `consume()?` is issued, and there is no `LeftBracket` branch, so
a list in value position reaches the value `match`'s `unreachable!()`. -/
def parseTopLoop : Nat → CoolDataObject → List Token → POut CoolDataObject
  | 0, _, _ => .nofuel
  | _ + 1, out, [] => .ok out
  | fuel + 1, out, t :: ts =>
      match t.tt with
      | .Ident name =>
          match ts with
          | [] => .panicked
          | u :: ts2 =>
              if u.tt = .Equals then
                match ts2 with
                | [] => .error .unexpectedEofTok
                | w :: ts3 =>
                    match w.tt with
                    | .LeftBrace =>
                        match parseObjectLoop fuel [] ts3 with
                        | .ok (obj, rest) =>
                            match rest with
                            | [] => .error .unexpectedEofTok
                            | r :: rest2 =>
                                if r.tt = .RightBrace then
                                  match rest2 with
                                  | [] => .error .unexpectedEofTok
                                  | _ :: rest3 =>
                                      parseTopLoop fuel
                                        (addField out name (.ObjectV obj)) rest3
                                else
                                  .error (.expectedRBrace t.tt t.loc)
                        | .error e => .error e
                        | .panicked => .panicked
                        | .nofuel => .nofuel
                    | .IntTok v =>
                        match intValue v with
                        | .ok d => parseTopLoop fuel (addField out name d) ts3
                        | .error e => .error e
                        | .panicked => .panicked
                        | .nofuel => .nofuel
                    | .FloatTok v =>
                        match floatValue v with
                        | .ok d => parseTopLoop fuel (addField out name d) ts3
                        | .error e => .error e
                        | .panicked => .panicked
                        | .nofuel => .nofuel
                    | .Str v => parseTopLoop fuel (addField out name (.StrV v)) ts3
                    | _ => .panicked
              else
                .error (.expectedEquals u.tt u.loc)
      | .Newline => parseTopLoop fuel out ts
      | _ => .panicked

/-- `Parser::parse` on a token sequence.  The fuel is generous: every
recursive call of the loops above either consumes a token first or is one
of at most three descents per consumed token. -/
def parseTokens (ts : List Token) : POut CoolDataObject :=
  parseTopLoop (4 * ts.length + 16) [] ts

/-- Result of the crate-level `parse` entry point (src/lib.rs), which
chains `Tokenizer::tokenize` and `Parser::parse` and surfaces either
side's failure. -/
inductive DocResult where
  | ok (o : CoolDataObject)
  | lexErr (e : LexError)
  | parseErr (e : PError)
  | panicked
  | nofuel
deriving Repr

/-- The crate-level `parse` (src/lib.rs): tokenize, then parse. -/
def parse (content : String) : DocResult :=
  match tokenize content with
  | .error e => .lexErr e
  | .ok ts =>
      match parseTokens ts with
      | .ok o => .ok o
      | .error e => .parseErr e
      | .panicked => .panicked
      | .nofuel => .nofuel

/-! ## The renderer (`Display` impls in src/parser.rs, `save_to_file` in
src/lib.rs)

`save_to_file` writes `key = value\n` for each top-level field; nested
values are written through `Display for CoolDataType`: integers and
floats with Rust's `{}` formatting, strings with `{:?}` (Debug, which
quotes and escapes), objects as `{\n … }` blocks, lists as one element
per line.

Modelled from the Rust standard library:
* `{}` on a nonnegative integer prints its decimal digits
  (`renderNat`); a negative one gets a leading minus;
* `{}` on `f32` prints the shortest decimal that reads back to the same
  value — integral floats print with no fractional part.  In the exact
  rational model this is rendered as the (possibly zero-padded,
  non-shortest) `q.den`-digit decimal expansion; like Rust's shortest
  form, it reads back to exactly the rendered value, which is what the
  round-trip claims consume.  Floats without a finite decimal expansion
  cannot arise from parsing and render as garbage.
* `{:?}` on a string quotes it and escapes `"`, `\`, and control
  characters (`str::escape_debug`); other characters pass through. -/

/-- Decimal digit accumulation, structural in the fuel (any fuel above
the value is enough). -/
def renderNatAux : Nat → Nat → List Char → List Char
  | 0, _, acc => acc
  | fuel + 1, n, acc =>
      if n < 10 then
        Char.ofNat (48 + n) :: acc
      else
        renderNatAux fuel (n / 10) (Char.ofNat (48 + n % 10) :: acc)

/-- Decimal digits of a natural number, as printed by Rust's `{}`. -/
def renderNat (n : Nat) : List Char :=
  renderNatAux (n + 1) n []

/-- Decimal rendering of an `i32` value. -/
def intChars (n : ℤ) : List Char :=
  if n < 0 then '-' :: renderNat (-n).toNat else renderNat n.toNat

/-- `renderNat m` left-padded with zeros to `k` digits (the fractional
block of a decimal expansion). -/
def padDigits (k m : Nat) : List Char :=
  List.replicate (k - (renderNat m).length) '0' ++ renderNat m

/-- Decimal rendering of a float value: integral values print with no
point (as Rust's `{}` does); otherwise the `q.den`-digit exact decimal
expansion is printed. -/
def floatChars (q : ℚ) : List Char :=
  if q.den = 1 then intChars q.num
  else
    renderNat ((q * (10 : ℚ) ^ q.den).num.toNat / 10 ^ q.den) ++
      '.' :: padDigits q.den ((q * (10 : ℚ) ^ q.den).num.toNat % 10 ^ q.den)

/-- Lowercase hexadecimal digit. -/
def hexDigitChar (n : Nat) : Char :=
  if n < 10 then Char.ofNat (48 + n) else Char.ofNat (87 + n)

/-- Lowercase hexadecimal digits (for `\u` escapes). -/
def hexCharsAux : Nat → Nat → List Char → List Char
  | 0, _, acc => acc
  | fuel + 1, n, acc =>
      if n < 16 then
        hexDigitChar n :: acc
      else
        hexCharsAux fuel (n / 16) (hexDigitChar (n % 16) :: acc)

/-- One character under `str::escape_debug`: quote, backslash and the
common control characters get two-character escapes, other control
characters a `\u` escape, everything else passes through. -/
def escChar (c : Char) : List Char :=
  if c = '"' then ['\\', '"']
  else if c = '\\' then ['\\', '\\']
  else if c = '\n' then ['\\', 'n']
  else if c = '\t' then ['\\', 't']
  else if c = '\r' then ['\\', 'r']
  else if c.toNat < 32 ∨ c.toNat = 127 then
    ['\\', 'u', '{'] ++ hexCharsAux (c.toNat + 1) c.toNat [] ++ ['}']
  else [c]

/-- `str::escape_debug` over a character list. -/
def escapeChars : List Char → List Char
  | [] => []
  | c :: cs => escChar c ++ escapeChars cs

mutual

/-- `Display for CoolDataType`, producing the character stream. -/
def valueChars : CoolDataType → List Char
  | .IntV n => intChars n
  | .FloatV q => floatChars q
  | .StrV s => '"' :: escapeChars s.data ++ ['"']
  | .ObjectV fields => '{' :: '\n' :: objectChars fields ++ ['}']
  | .ListV elems => listChars elems

/-- `Display for CoolDataObject` and, at the top level, the lines
written by `save_to_file`: one `key = value\n` line per field. -/
def objectChars : List (String × CoolDataType) → List Char
  | [] => []
  | (k, v) :: rest =>
      k.data ++ ' ' :: '=' :: ' ' :: (valueChars v ++ '\n' :: objectChars rest)

/-- `Display for CoolDataList`: one element per line. -/
def listChars : List CoolDataType → List Char
  | [] => []
  | v :: rest => valueChars v ++ '\n' :: listChars rest

end

/-- The text written by `save_to_file` for a value tree. -/
def renderDoc (o : CoolDataObject) : String :=
  ⟨objectChars o⟩

/-! ## Statement material for the round-trip law -/

/-- Printable ASCII characters other than the quote and the backslash:
exactly the characters `str::escape_debug` passes through unchanged (and
which are unambiguous inside a string literal for the scanner). -/
def plainChar (c : Char) : Bool :=
  32 ≤ c.toNat && c.toNat < 127 && c ≠ '"' && c ≠ '\\'

/-- A scalar value as the parser itself can produce it, further
restricted to the escape-free strings and non-integral finite-decimal
floats that the renderer reproduces faithfully. -/
def scalarOk : CoolDataType → Prop
  | .IntV n => 0 ≤ n ∧ n ≤ 2147483647
  | .FloatV q => 0 ≤ q ∧ q.den ≠ 1 ∧ q.den ∣ 10 ^ q.den
  | .StrV s => ∀ c ∈ s.data, plainChar c
  | .ObjectV _ => False
  | .ListV _ => False

/-- A field name as the scanner produces it: nonempty and alphabetic. -/
def identOk (k : String) : Prop :=
  k.data ≠ [] ∧ ∀ c ∈ k.data, c.isAlpha

/-- A flat, scalar-only, renderable document object. -/
def docOk (o : CoolDataObject) : Prop :=
  (o.map Prod.fst).Nodup ∧ ∀ kv ∈ o, identOk kv.1 ∧ scalarOk kv.2

/-- The token kind the scanner recovers from a rendered scalar. -/
def scalarTT : CoolDataType → TokenType
  | .IntV n => .IntTok ⟨intChars n⟩
  | .FloatV q => .FloatTok ⟨floatChars q⟩
  | .StrV s => .Str s
  | .ObjectV _ => .LeftBrace
  | .ListV _ => .LeftBracket

/-- The token sequence the scanner produces from a rendered flat scalar
document whose first line is `line`. -/
def docTokens : Nat → CoolDataObject → List Token
  | _, [] => []
  | line, (k, v) :: rest =>
      ⟨.Ident k, ⟨1, line⟩⟩ :: ⟨.Equals, ⟨k.length + 3, line⟩⟩ ::
        ⟨scalarTT v, ⟨k.length + 5, line⟩⟩ :: ⟨.Newline, ⟨1, line + 1⟩⟩ ::
        docTokens (line + 1) rest

instance (v : CoolDataType) : Decidable (scalarOk v) :=
  match v with
  | .IntV _ => inferInstanceAs (Decidable (_ ∧ _))
  | .FloatV _ => inferInstanceAs (Decidable (_ ∧ _ ∧ _))
  | .StrV s => inferInstanceAs (Decidable (∀ c ∈ s.data, plainChar c))
  | .ObjectV _ => inferInstanceAs (Decidable False)
  | .ListV _ => inferInstanceAs (Decidable False)

instance (k : String) : Decidable (identOk k) :=
  inferInstanceAs (Decidable (_ ∧ _))

instance (o : CoolDataObject) : Decidable (docOk o) :=
  inferInstanceAs (Decidable (_ ∧ _))

/-! ## Theorems

Concrete runs of the embedded code are closed by kernel computation; the
rational operations of Batteries are `@[irreducible]` only to keep them
out of `simp`-normal forms, so they are restored to `semireducible` for
that purpose. -/

attribute [local semireducible] Rat.add Rat.mul Rat.inv

/-- Claim C6 (code_bug evidence): after `identifier =` and after an
unmatched `{` the parser does return `UnexpectedEof`, but a lone trailing
identifier reaches the `unreachable!()` inside the missing-equals check
(the parser peeks again expecting a token to blame) and panics instead of
returning an error. -/
theorem claim6_eof_outcomes :
    parse "a" = .panicked ∧
      parse "a =" = .parseErr .unexpectedEofTok ∧
      parse "a = \x7b" = .parseErr .unexpectedEofTok :=
  ⟨rfl, rfl, rfl⟩

/-- Claim C1 (code_bug evidence): a bracketed list in value position
panics instead of parsing.  At the top level `Parser::parse` has no
`LeftBracket` branch, so both `a = [1, 2, 3]` and `a = [1 2 3]` reach the
value dispatch's `unreachable!()`; inside an object (where the branch
exists) a comma element still panics because `parse_list` consumes the
comma and then falls into the `match` whose catch-all is
`unreachable!()`. -/
theorem claim1_list_panics :
    parse "a = [1, 2, 3]" = .panicked ∧
      parse "a = [1 2 3]" = .panicked ∧
      parse "a = \x7b b = [1, 2] \x7d" = .panicked :=
  ⟨rfl, rfl, rfl⟩

/-- Claim C2 (code_bug evidence): a grammar violation can panic rather
than surface a `ParseError`: a token sequence starting with `=` (as
`tokenize` produces for the input `"="`) reaches the top-level loop's
`unreachable!()` catch-all. -/
theorem claim2_parse_panics :
    parseTokens [⟨.Equals, ⟨1, 1⟩⟩] = .panicked ∧ parse "=" = .panicked :=
  ⟨rfl, rfl⟩

/-- Claim C3 (code_bug evidence): `parse("a = { b = 1 }")` fails with
`UnexpectedEof` because after matching the closing brace the top-level
parser issues one further `consume()?`; with any trailing token (here a
newline) the expected object is produced. -/
theorem claim3_object_close :
    parse "a = \x7b b = 1 \x7d" = .parseErr .unexpectedEofTok ∧
      parse "a = \x7b b = 1 \x7d\n" = .ok [("a", .ObjectV [("b", .IntV 1)])] :=
  ⟨rfl, rfl⟩

/-- Claim C4 (code_bug evidence): recorded columns drift.  In `a = 1`
the `=` sits at column 3 and the `1` at column 5, but the scanner records
columns 4 and 6: after an identifier or numeric token it advances the
column by the consumed count plus one.  A `Newline` token also records
the line/column placed after the newline, `(1, line+1)`, not its own
position. -/
theorem claim4_column_drift :
    tokenize "a = 1" =
        .ok [⟨.Ident "a", ⟨1, 1⟩⟩, ⟨.Equals, ⟨4, 1⟩⟩, ⟨.IntTok "1", ⟨6, 1⟩⟩] ∧
      tokenize "a\n" = .ok [⟨.Ident "a", ⟨1, 1⟩⟩, ⟨.Newline, ⟨1, 2⟩⟩] :=
  ⟨rfl, rfl⟩

/-- Claim C7: the three-scalar document parses to exactly the three
typed fields, the newline separators being consumed transparently. -/
theorem claim7_three_scalars :
    parse "a = 1\nb = 2.5\nc = \"x\"\n" =
      .ok [("a", .IntV 1), ("b", .FloatV (5 / 2)), ("c", .StrV "x")] :=
  rfl

/-- Claim C8 (counterexample): `a = 1.2.3` does fail in the scanner on
the double period, but the reported location is the scanner's recorded
start of the numeric literal, `(1, 6)` — the second `.` occupies column
8 of the line. -/
theorem claim8_counterexample :
    tokenize "a = 1.2.3" = .error (.doublePeriod 1 6) ∧ (6 : Nat) ≠ 8 :=
  ⟨rfl, by decide⟩

/-- Claim C8 (amended): `a = 1.2.3` fails with the double-period lex
error located at the scanner's recorded start of the numeric literal,
line 1 column 6 (the literal truly starts at column 5; the recorded
start is one past it because of the column drift of C4). -/
theorem claim8_amended :
    tokenize "a = 1.2.3" = .error (.doublePeriod 1 6) :=
  rfl

/-- Claim C9: `get_field` on an absent name reports an unknown field;
`get_string` returns exactly the stored text of a `String` field and
rejects an `Int` field with a wrong-type error, with no coercion. -/
theorem claim9_accessors (o : CoolDataObject) (name : String) :
    (lookupField o name = none →
        getField o name = .error (.unknownField name)) ∧
      (∀ s, lookupField o name = some (.StrV s) → getString o name = .ok s) ∧
      (∀ n, lookupField o name = some (.IntV n) →
        getString o name = .error (.notType name "String")) := by
  refine ⟨fun h => ?_, fun s h => ?_, fun n h => ?_⟩ <;>
    simp [getString, getField, h]

/-- Witness for C9 on a concrete parsed-shape object. -/
theorem claim9_accessors_witness :
    getField [("c", CoolDataType.StrV "x")] "q" = .error (.unknownField "q") ∧
      getString [("c", CoolDataType.StrV "x")] "c" = .ok "x" ∧
      getString [("n", CoolDataType.IntV 3)] "n" =
        .error (.notType "n" "String") :=
  ⟨(claim9_accessors [("c", CoolDataType.StrV "x")] "q").1 rfl,
    (claim9_accessors [("c", CoolDataType.StrV "x")] "c").2.1 "x" rfl,
    (claim9_accessors [("n", CoolDataType.IntV 3)] "n").2.2 3 rfl⟩

/-- Claim C5 (counterexample): the round-trip law fails for a flat
scalar-only object.  `a = 2.0` parses to a float field; Rust's `{}`
renders the integral float `2.0` as `2`, which re-parses as an `Int`
field, not structurally equal to the original. -/
theorem claim5_counterexample :
    parse "a = 2.0" = .ok [("a", .FloatV 2)] ∧
      renderDoc [("a", CoolDataType.FloatV 2)] = "a = 2\n" ∧
      parse (renderDoc [("a", CoolDataType.FloatV 2)]) = .ok [("a", .IntV 2)] ∧
      DocResult.ok [("a", CoolDataType.FloatV 2)] ≠
        DocResult.ok [("a", CoolDataType.IntV 2)] :=
  ⟨rfl, rfl, rfl, by simp⟩

/-- On whitespace-only input the scanner produces only `Newline` tokens
(one per newline; other whitespace is consumed silently). -/
theorem tokenizeLoop_ws (cs : List Char) (h : ∀ c ∈ cs, c.isWhitespace) :
    ∀ fuel line col acc, ∃ ts,
      tokenizeLoop (cs.length + fuel + 1) line col acc cs =
          .ok (acc.reverse ++ ts) ∧
        ∀ t ∈ ts, t.tt = TokenType.Newline := by
  induction cs with
  | nil =>
      intro fuel line col acc
      exact ⟨[], by simp [tokenizeLoop], by simp⟩
  | cons c cs ih =>
      intro fuel line col acc
      have hlen : (c :: cs).length + fuel + 1 = (cs.length + fuel + 1) + 1 := by
        simp [List.length_cons]; omega
      rw [hlen]
      have hc : c.isWhitespace := h c (by simp)
      by_cases hnl : c = '\n'
      · subst hnl
        obtain ⟨ts, hrun, hall⟩ :=
          ih (fun x hx => h x (by simp [hx])) fuel (line + 1) 1
            (⟨.Newline, ⟨1, line + 1⟩⟩ :: acc)
        refine ⟨⟨.Newline, ⟨1, line + 1⟩⟩ :: ts, ?_, ?_⟩
        · simpa [tokenizeLoop, List.append_assoc] using hrun
        · intro t ht
          rcases List.mem_cons.mp ht with h1 | h2
          · simp [h1]
          · exact hall t h2
      · obtain ⟨ts, hrun, hall⟩ :=
          ih (fun x hx => h x (by simp [hx])) fuel line (col + 1) acc
        refine ⟨ts, ?_, hall⟩
        simpa [tokenizeLoop, hnl, hc] using hrun

/-- The top-level parser loop skips `Newline` tokens without touching the
accumulated object. -/
theorem parseTopLoop_newlines (ts : List Token)
    (h : ∀ t ∈ ts, t.tt = TokenType.Newline) :
    ∀ fuel out, parseTopLoop (ts.length + fuel + 1) out ts = .ok out := by
  induction ts with
  | nil => intro fuel out; simp [parseTopLoop]
  | cons t ts ih =>
      intro fuel out
      obtain ⟨tt, loc⟩ := t
      have htt : tt = TokenType.Newline := h ⟨tt, loc⟩ (by simp)
      subst htt
      have hlen : (⟨.Newline, loc⟩ :: ts).length + fuel + 1 =
          (ts.length + fuel + 1) + 1 := by
        simp [List.length_cons]; omega
      rw [hlen]
      have := ih (fun x hx => h x (by simp [hx])) fuel out
      simpa [parseTopLoop] using this

/-- Claim C10: an empty input, or one consisting only of whitespace and
newlines, parses to the empty object. -/
theorem claim10_blank_document (s : String) (h : ∀ c ∈ s.data, c.isWhitespace) :
    parse s = .ok [] := by
  obtain ⟨ts, hts, hnl⟩ := tokenizeLoop_ws s.data h 0 1 1 []
  have htok : tokenize s = .ok ts := by
    unfold tokenize
    simpa using hts
  have h4 : 4 * ts.length + 16 = ts.length + (3 * ts.length + 15) + 1 := by omega
  have hpt : parseTokens ts = .ok [] := by
    unfold parseTokens
    rw [h4]
    exact parseTopLoop_newlines ts hnl (3 * ts.length + 15) []
  simp [parse, htok, hpt]

/-- Witness for C10: the empty document and a blank one. -/
theorem claim10_blank_document_witness :
    parse "" = .ok [] ∧ parse " \n \t\n " = .ok [] :=
  ⟨claim10_blank_document "" (by decide),
    claim10_blank_document " \n \t\n " (by decide)⟩

/-! ### Character-class facts

The scanner's branch conditions are on `Char` predicates; these lemmas
translate them to code-point bounds so that distinct classes can be
separated by `omega`. -/

theorem toNat_of_isDigit {c : Char} (h : c.isDigit = true) :
    48 ≤ c.toNat ∧ c.toNat ≤ 57 := by
  simpa [Char.isDigit, UInt32.le_def, BitVec.le_def] using h

theorem isDigit_of_toNat {c : Char} (h1 : 48 ≤ c.toNat) (h2 : c.toNat ≤ 57) :
    c.isDigit = true := by
  simp [Char.isDigit, UInt32.le_def, BitVec.le_def]
  exact ⟨h1, h2⟩

theorem toNat_of_isAlpha {c : Char} (h : c.isAlpha = true) :
    65 ≤ c.toNat ∧ c.toNat ≤ 122 := by
  have hh := h
  simp [Char.isAlpha, Char.isLower, Char.isUpper, UInt32.le_def,
    BitVec.le_def] at hh
  have hb : c.toNat = c.val.toBitVec.toNat := rfl
  rcases hh with ⟨h1, h2⟩ | ⟨h1, h2⟩ <;> omega

theorem toNat_of_isWhitespace {c : Char} (h : c.isWhitespace = true) :
    c.toNat ≤ 32 := by
  have := h
  simp [Char.isWhitespace] at this
  rcases this with ((rfl | rfl) | rfl) | rfl <;> decide

theorem char_ne_of_toNat {c d : Char} (h : c.toNat ≠ d.toNat) : c ≠ d :=
  fun he => h (by rw [he])

theorem isDigit_ne_dot {c : Char} (h : c.isDigit = true) : c ≠ '.' :=
  char_ne_of_toNat
    (by have := toNat_of_isDigit h; have hd : ('.' : Char).toNat = 46 := rfl; omega)

theorem isDigit_ne_nl {c : Char} (h : c.isDigit = true) : c ≠ '\n' :=
  char_ne_of_toNat
    (by have := toNat_of_isDigit h; have hd : ('\n' : Char).toNat = 10 := rfl; omega)

theorem isDigit_not_ws {c : Char} (h : c.isDigit = true) :
    c.isWhitespace = false := by
  cases hw : c.isWhitespace with
  | false => rfl
  | true =>
      have := toNat_of_isWhitespace hw
      have := toNat_of_isDigit h
      omega

theorem isAlpha_ne_nl {c : Char} (h : c.isAlpha = true) : c ≠ '\n' :=
  char_ne_of_toNat
    (by have := toNat_of_isAlpha h; have hd : ('\n' : Char).toNat = 10 := rfl; omega)

theorem isAlpha_ne_eq {c : Char} (h : c.isAlpha = true) : c ≠ '=' :=
  char_ne_of_toNat
    (by have := toNat_of_isAlpha h; have hd : ('=' : Char).toNat = 61 := rfl; omega)

theorem isAlpha_not_ws {c : Char} (h : c.isAlpha = true) :
    c.isWhitespace = false := by
  cases hw : c.isWhitespace with
  | false => rfl
  | true =>
      have := toNat_of_isWhitespace hw
      have := toNat_of_isAlpha h
      omega

theorem isAlpha_not_digit {c : Char} (h : c.isAlpha = true) :
    c.isDigit = false := by
  cases hd : c.isDigit with
  | false => rfl
  | true =>
      have := toNat_of_isDigit hd
      have := toNat_of_isAlpha h
      omega

theorem plainChar_bounds {c : Char} (h : plainChar c = true) :
    32 ≤ c.toNat ∧ c.toNat < 127 ∧ c ≠ '"' ∧ c ≠ '\\' := by
  have hh := h
  simp [plainChar] at hh
  obtain ⟨⟨⟨h1, h2⟩, h3⟩, h4⟩ := hh
  exact ⟨h1, h2, h3, h4⟩

theorem plainChar_ne_quote {c : Char} (h : plainChar c = true) : c ≠ '"' :=
  (plainChar_bounds h).2.2.1

theorem plainChar_ne_nl {c : Char} (h : plainChar c = true) : c ≠ '\n' :=
  char_ne_of_toNat
    (by
      have := (plainChar_bounds h).1
      have hd : ('\n' : Char).toNat = 10 := rfl
      omega)

/-! ### Runs of the scanner's helper loops -/

/-- `parse_ident` consumes a run of alphabetic characters up to a
space. -/
theorem identLoop_run (line col : Nat) :
    ∀ ks buf cd rest, (∀ c ∈ ks, c.isAlpha = true) →
      identLoop line col buf cd (ks ++ ' ' :: rest) =
        (⟨.Ident ⟨buf ++ ks⟩, ⟨col, line⟩⟩, cd + ks.length + 1, ' ' :: rest) := by
  intro ks
  induction ks with
  | nil => intro buf cd rest h; simp [identLoop]
  | cons c ks ih =>
      intro buf cd rest h
      have hc : c.isAlpha = true := h c (by simp)
      have hcond : (c.isAlpha && !c.isWhitespace && decide (c ≠ '=')) = true := by
        simp [hc, isAlpha_not_ws hc, isAlpha_ne_eq hc]
      have hstep : identLoop line col buf cd ((c :: ks) ++ ' ' :: rest) =
          identLoop line col (buf ++ [c]) (cd + 1) (ks ++ ' ' :: rest) := by
        simp only [List.cons_append, identLoop]
        rw [if_pos hcond]
        simp only [List.append_eq]
      rw [hstep, ih (buf ++ [c]) (cd + 1) rest (fun x hx => h x (by simp [hx]))]
      simp [List.append_assoc, List.length_cons]
      all_goals omega

/-- `parse_number` consumes a run of digits without changing the float
flag. -/
theorem numLoop_digits (line col : Nat) (isF : Bool) :
    ∀ ds buf cd rest, (∀ c ∈ ds, c.isDigit = true) →
      numLoop line col isF buf cd (ds ++ rest) =
        numLoop line col isF (buf ++ ds) (cd + ds.length) rest := by
  intro ds
  induction ds with
  | nil => intro buf cd rest h; simp
  | cons c ds ih =>
      intro buf cd rest h
      have hc : c.isDigit = true := h c (by simp)
      have hstep : numLoop line col isF buf cd ((c :: ds) ++ rest) =
          numLoop line col isF (buf ++ [c]) (cd + 1) (ds ++ rest) := by
        simp only [List.cons_append, numLoop]
        rw [if_pos (by simp [hc]), if_neg (by simp [isDigit_ne_dot hc])]
        simp only [List.append_eq]
      rw [hstep, ih (buf ++ [c]) (cd + 1) rest (fun x hx => h x (by simp [hx]))]
      have h1 : buf ++ [c] ++ ds = buf ++ c :: ds := by simp
      have h2 : cd + 1 + ds.length = cd + (c :: ds).length := by
        simp [List.length_cons]; omega
      rw [h1, h2]

/-- `parse_number` turns float on at the first period. -/
theorem numLoop_dot (line col : Nat) (buf : List Char) (cd : Nat)
    (rest : List Char) :
    numLoop line col false buf cd ('.' :: rest) =
      numLoop line col true (buf ++ ['.']) (cd + 1) rest := by
  simp [numLoop]

/-- `parse_number` stops at a newline and emits the accumulated
literal. -/
theorem numLoop_nl (line col : Nat) (isF : Bool) (buf : List Char) (cd : Nat)
    (rest : List Char) :
    numLoop line col isF buf cd ('\n' :: rest) =
      .ok (⟨if isF then .FloatTok ⟨buf⟩ else .IntTok ⟨buf⟩, ⟨col, line⟩⟩,
        cd + 1, '\n' :: rest) := by
  simp [numLoop]

/-- `parse_string` consumes plain characters up to the closing quote. -/
theorem strLoop_run (line col : Nat) :
    ∀ ss buf cd rest, (∀ c ∈ ss, plainChar c = true) →
      strLoop line col buf cd (ss ++ '"' :: rest) =
        .ok (⟨.Str ⟨buf ++ ss⟩, ⟨col, line⟩⟩, cd + ss.length + 1, rest) := by
  intro ss
  induction ss with
  | nil => intro buf cd rest h; simp [strLoop]
  | cons c ss ih =>
      intro buf cd rest h
      have hc : plainChar c = true := h c (by simp)
      have hstep : strLoop line col buf cd ((c :: ss) ++ '"' :: rest) =
          strLoop line col (buf ++ [c]) (cd + 1) (ss ++ '"' :: rest) := by
        simp only [List.cons_append, strLoop]
        rw [if_neg (by simp [plainChar_ne_quote hc]),
          if_neg (by simp [plainChar_ne_nl hc])]
        simp only [List.append_eq]
      rw [hstep, ih (buf ++ [c]) (cd + 1) rest (fun x hx => h x (by simp [hx]))]
      simp [List.append_assoc, List.length_cons]
      all_goals omega

/-- `escape_debug` leaves a plain character unchanged. -/
theorem escChar_plain {c : Char} (h : plainChar c = true) : escChar c = [c] := by
  obtain ⟨h1, h2, h3, h4⟩ := plainChar_bounds h
  have h5 : c ≠ '\n' :=
    char_ne_of_toNat (by have : ('\n' : Char).toNat = 10 := rfl; omega)
  have h6 : c ≠ '\t' :=
    char_ne_of_toNat (by have : ('\t' : Char).toNat = 9 := rfl; omega)
  have h7 : c ≠ '\x0d' :=
    char_ne_of_toNat (by have : ('\x0d' : Char).toNat = 13 := rfl; omega)
  have h8 : ¬(c.toNat < 32 ∨ c.toNat = 127) := by omega
  simp [escChar, h3, h4, h5, h6, h7, h8]

/-- `escape_debug` leaves a plain string unchanged. -/
theorem escapeChars_plain :
    ∀ ss, (∀ c ∈ ss, plainChar c = true) → escapeChars ss = ss := by
  intro ss
  induction ss with
  | nil => intro h; rfl
  | cons c ss ih =>
      intro h
      have hc := escChar_plain (h c (by simp))
      simp [escapeChars, hc, ih (fun x hx => h x (by simp [hx]))]

/-! ### Correctness of the decimal printer -/

theorem toNat_ofNat_small {m : Nat} (h : m < 55296) :
    (Char.ofNat m).toNat = m := by
  have hv : m.isValidChar := Or.inl h
  rw [Char.ofNat, dif_pos hv]
  rfl

theorem renderNatAux_acc :
    ∀ fuel n acc, renderNatAux fuel n acc = renderNatAux fuel n [] ++ acc := by
  intro fuel
  induction fuel with
  | zero => intro n acc; simp [renderNatAux]
  | succ fuel ih =>
      intro n acc
      by_cases h : n < 10
      · simp [renderNatAux, h]
      · simp only [renderNatAux, if_neg h]
        rw [ih (n / 10) (Char.ofNat (48 + n % 10) :: acc),
          ih (n / 10) [Char.ofNat (48 + n % 10)]]
        simp

theorem renderNatAux_irrel :
    ∀ fuel n, n < fuel → ∀ fuel2, n < fuel2 →
      renderNatAux fuel n [] = renderNatAux fuel2 n [] := by
  intro fuel
  induction fuel with
  | zero => intro n h; omega
  | succ fuel ih =>
      intro n h fuel2 h2
      obtain ⟨f2, rfl⟩ : ∃ f2, fuel2 = f2 + 1 := ⟨fuel2 - 1, by omega⟩
      by_cases hn : n < 10
      · simp [renderNatAux, hn]
      · simp only [renderNatAux, if_neg hn]
        rw [renderNatAux_acc fuel, renderNatAux_acc f2]
        have hd : n / 10 < n := Nat.div_lt_self (by omega) (by omega)
        rw [ih (n / 10) (by omega) f2 (by omega)]

theorem renderNat_small {n : Nat} (h : n < 10) :
    renderNat n = [Char.ofNat (48 + n)] := by
  simp [renderNat, renderNatAux, h]

theorem renderNat_step {n : Nat} (h : 10 ≤ n) :
    renderNat n = renderNat (n / 10) ++ [Char.ofNat (48 + n % 10)] := by
  have hd : n / 10 < n := Nat.div_lt_self (by omega) (by omega)
  rw [renderNat]
  simp only [renderNatAux, if_neg (by omega : ¬ n < 10)]
  rw [renderNatAux_acc n,
    renderNatAux_irrel n (n / 10) (by omega) (n / 10 + 1) (by omega)]
  rfl

theorem renderNat_digits :
    ∀ n, ∀ c ∈ renderNat n, c.isDigit = true := by
  intro n
  induction n using Nat.strong_induction_on with
  | _ n ih =>
      by_cases h : n < 10
      · rw [renderNat_small h]
        intro c hc
        simp at hc
        subst hc
        exact isDigit_of_toNat (by rw [toNat_ofNat_small (by omega)]; omega)
          (by rw [toNat_ofNat_small (by omega)]; omega)
      · rw [renderNat_step (by omega)]
        intro c hc
        rcases List.mem_append.mp hc with h1 | h2
        · exact ih (n / 10) (Nat.div_lt_self (by omega) (by omega)) c h1
        · simp at h2
          subst h2
          have hm : n % 10 < 10 := Nat.mod_lt _ (by omega)
          exact isDigit_of_toNat (by rw [toNat_ofNat_small (by omega)]; omega)
            (by rw [toNat_ofNat_small (by omega)]; omega)

theorem renderNat_ne_nil (n : Nat) : renderNat n ≠ [] := by
  by_cases h : n < 10
  · rw [renderNat_small h]; simp
  · rw [renderNat_step (by omega)]; simp

theorem digitsToNat_go :
    ∀ ys a, ys.foldl (fun a c => 10 * a + (c.toNat - 48)) a =
      a * 10 ^ ys.length + digitsToNat ys := by
  intro ys
  induction ys with
  | nil => intro a; simp [digitsToNat]
  | cons c ys ih =>
      intro a
      show ys.foldl _ (10 * a + (c.toNat - 48)) = _
      rw [ih (10 * a + (c.toNat - 48))]
      have hc : digitsToNat (c :: ys) =
          (c.toNat - 48) * 10 ^ ys.length + digitsToNat ys := by
        show ys.foldl _ (10 * 0 + (c.toNat - 48)) = _
        rw [ih (10 * 0 + (c.toNat - 48))]
        ring_nf
      rw [hc]
      simp [List.length_cons, pow_succ]
      ring

theorem digitsToNat_append (xs ys : List Char) :
    digitsToNat (xs ++ ys) = digitsToNat xs * 10 ^ ys.length + digitsToNat ys := by
  show (xs ++ ys).foldl _ 0 = _
  rw [List.foldl_append, digitsToNat_go ys]
  rfl

theorem digitsToNat_renderNat : ∀ n, digitsToNat (renderNat n) = n := by
  intro n
  induction n using Nat.strong_induction_on with
  | _ n ih =>
      by_cases h : n < 10
      · rw [renderNat_small h]
        show 10 * 0 + ((Char.ofNat (48 + n)).toNat - 48) = n
        rw [toNat_ofNat_small (by omega)]
        omega
      · rw [renderNat_step (by omega), digitsToNat_append]
        rw [ih (n / 10) (Nat.div_lt_self (by omega) (by omega))]
        have hm : n % 10 < 10 := Nat.mod_lt _ (by omega)
        have : digitsToNat [Char.ofNat (48 + n % 10)] = n % 10 := by
          show 10 * 0 + ((Char.ofNat (48 + n % 10)).toNat - 48) = n % 10
          rw [toNat_ofNat_small (by omega)]
          omega
        rw [this]
        simp
        omega

theorem renderNat_length :
    ∀ k n, n < 10 ^ (k + 1) → (renderNat n).length ≤ k + 1 := by
  intro k
  induction k with
  | zero =>
      intro n h
      rw [renderNat_small (by simpa using h)]
      simp
  | succ k ih =>
      intro n h
      by_cases hn : n < 10
      · rw [renderNat_small hn]; simp
      · rw [renderNat_step (by omega)]
        have hdiv : n / 10 < 10 ^ (k + 1) := by
          rw [Nat.div_lt_iff_lt_mul (by omega)]
          calc n < 10 ^ (k + 1 + 1) := h
          _ = 10 ^ (k + 1) * 10 := by rw [pow_succ]
        have := ih (n / 10) hdiv
        simp [List.length_append]
        omega

theorem digitsToNat_replicate_zero :
    ∀ j, digitsToNat (List.replicate j '0') = 0 := by
  intro j
  induction j with
  | zero => rfl
  | succ j ih =>
      show (List.replicate (j + 1) '0').foldl _ 0 = 0
      rw [List.replicate_succ]
      show (List.replicate j '0').foldl _ (10 * 0 + ('0'.toNat - 48)) = 0
      have : 10 * 0 + ('0'.toNat - 48) = 0 := by decide
      rw [this]
      exact ih

theorem digitsToNat_padDigits (k m : Nat) :
    digitsToNat (padDigits k m) = m := by
  rw [padDigits, digitsToNat_append, digitsToNat_replicate_zero,
    digitsToNat_renderNat]
  simp

theorem padDigits_length {k m : Nat} (hk : 1 ≤ k) (h : m < 10 ^ k) :
    (padDigits k m).length = k := by
  have hlen : (renderNat m).length ≤ k := by
    obtain ⟨k2, rfl⟩ : ∃ k2, k = k2 + 1 := ⟨k - 1, by omega⟩
    exact renderNat_length k2 m h
  simp [padDigits, List.length_append, List.length_replicate]
  omega

theorem padDigits_digits (k m : Nat) :
    ∀ c ∈ padDigits k m, c.isDigit = true := by
  intro c hc
  rcases List.mem_append.mp hc with h1 | h2
  · have : c = '0' := List.eq_of_mem_replicate h1
    subst this
    decide
  · exact renderNat_digits m c h2

/-! ### Re-reading rendered scalar literals -/

theorem span_loop_run {α : Type} (p : α → Bool) :
    ∀ xs rs y ys, (∀ c ∈ xs, p c = true) → p y = false →
      List.span.loop p (xs ++ y :: ys) rs = (rs.reverse ++ xs, y :: ys) := by
  intro xs
  induction xs with
  | nil =>
      intro rs y ys _ hy
      simp [List.span.loop, hy]
  | cons c xs ih =>
      intro rs y ys hxs hy
      have hc : p c = true := hxs c (by simp)
      have := ih (c :: rs) y ys (fun x hx => hxs x (by simp [hx])) hy
      simp only [List.cons_append, List.span.loop, hc]
      simp only [List.append_eq] at this ⊢
      rw [this]
      simp

theorem span_run {α : Type} (p : α → Bool) (xs : List α) (y : α) (ys : List α)
    (hxs : ∀ c ∈ xs, p c = true) (hy : p y = false) :
    (xs ++ y :: ys).span p = (xs, y :: ys) := by
  rw [List.span, span_loop_run p xs [] y ys hxs hy]
  simp

/-- `str::parse::<i32>` re-reads a rendered `i32` digit string. -/
theorem intOfString_renderNat {n : Nat} (h : n ≤ 2147483647) :
    intOfString ⟨renderNat n⟩ = some (n : ℤ) := by
  have hne : renderNat n ≠ [] := renderNat_ne_nil n
  have hall : (renderNat n).all (fun c => c.isDigit) = true := by
    rw [List.all_eq_true]
    exact renderNat_digits n
  have hdv : digitsToNat (renderNat n) = n := digitsToNat_renderNat n
  simp [intOfString, hne, hall, hdv, h]

/-- `str::parse::<f32>` re-reads the rendered exact decimal expansion of
a nonnegative non-integral float with a finite decimal expansion. -/
theorem floatOfString_floatChars {q : ℚ} (h0 : 0 ≤ q) (h1 : q.den ≠ 1)
    (h2 : (q.den : Nat) ∣ 10 ^ q.den) :
    floatOfString ⟨floatChars q⟩ = some q := by
  set d := q.den with hd
  have hdpos : 0 < d := q.pos
  have hdge : 1 ≤ d := hdpos
  set N := (q * (10 : ℚ) ^ d).num.toNat with hN
  set ip := N / 10 ^ d with hip
  set fr := N % 10 ^ d with hfr
  have hpow : (0 : Nat) < 10 ^ d := Nat.pos_pow_of_pos d (by omega)
  have hfrlt : fr < 10 ^ d := Nat.mod_lt _ hpow
  have hchars : floatChars q = renderNat ip ++ '.' :: padDigits d fr := by
    rw [floatChars, if_neg h1]
  have hspan : (renderNat ip ++ '.' :: padDigits d fr).span (fun c => c.isDigit) =
      (renderNat ip, '.' :: padDigits d fr) :=
    span_run _ _ _ _ (renderNat_digits ip) (by decide)
  have hpadlen : (padDigits d fr).length = d := padDigits_length hdge hfrlt
  have hvalue : (digitsToNat (renderNat ip) : ℚ) +
      (digitsToNat (padDigits d fr) : ℚ) /
        (10 : ℚ) ^ (padDigits d fr).length = q := by
    rw [digitsToNat_renderNat, digitsToNat_padDigits, hpadlen]
    -- the rendered value is N / 10^d, and N is exactly q * 10^d
    obtain ⟨t, ht⟩ := h2
    have hden2 : ((q.den : ℚ)) ≠ 0 := by exact_mod_cast q.den_nz
    have hnumq : (q.num : ℚ) = q * (q.den : ℚ) := by
      have h := Rat.num_div_den q
      rw [div_eq_iff hden2] at h
      exact h
    have hqt : q * (10 : ℚ) ^ d = ((q.num * t : ℤ) : ℚ) := by
      have key : (10 : ℚ) ^ d = (q.den : ℚ) * (t : ℚ) := by
        exact_mod_cast congrArg (fun n : ℕ => (n : ℚ)) ht
      rw [hd, key]
      push_cast
      rw [hnumq]
      ring
    have hnum : (q * (10 : ℚ) ^ d).num = q.num * t := by
      rw [hqt, Rat.intCast_num]
    have hnn : 0 ≤ q.num * t := by
      have := Rat.num_nonneg.mpr h0
      positivity
    have hNZ : (N : ℤ) = q.num * t := by
      rw [hN]
      show ((q * (10 : ℚ) ^ d).num.toNat : ℤ) = q.num * t
      rw [hnum, Int.toNat_of_nonneg hnn]
    have hNQ : ((N : ℕ) : ℚ) = q * (10 : ℚ) ^ d := by
      have hc : ((N : ℤ) : ℚ) = ((q.num * t : ℤ) : ℚ) :=
        congrArg (fun z : ℤ => (z : ℚ)) hNZ
      push_cast at hc
      rw [hqt]
      push_cast
      exact hc
    have hsplit : N / 10 ^ d * 10 ^ d + N % 10 ^ d = N :=
      Nat.div_add_mod' N (10 ^ d)
    have h10 : ((10 : ℚ) ^ d) ≠ 0 := by positivity
    have hfold : ((ip : ℕ) : ℚ) + ((fr : ℕ) : ℚ) / (10 : ℚ) ^ d =
        ((N : ℕ) : ℚ) / (10 : ℚ) ^ d := by
      rw [eq_div_iff h10, add_mul, div_mul_cancel₀ _ h10]
      rw [hip, hfr]
      exact_mod_cast hsplit
    rw [hfold, hNQ]
    field_simp
  rw [floatOfString]
  show (match (⟨floatChars q⟩ : String).data.span (fun c => c.isDigit) with
    | (ip2, []) => if ip2 ≠ [] then some ((digitsToNat ip2 : ℚ)) else none
    | (ip2, c :: fp) =>
        if c = '.' ∧ fp.all (fun c => c.isDigit) ∧ (ip2 ≠ [] ∨ fp ≠ []) then
          some ((digitsToNat ip2 : ℚ) +
            (digitsToNat fp : ℚ) / (10 : ℚ) ^ fp.length)
        else none) = some q
  have hdata : (⟨floatChars q⟩ : String).data = renderNat ip ++ '.' :: padDigits d fr := by
    rw [hchars]
  rw [hdata, hspan]
  have hcond : ('.' : Char) = '.' ∧
      (padDigits d fr).all (fun c => c.isDigit) = true ∧
      (renderNat ip ≠ [] ∨ padDigits d fr ≠ []) := by
    refine ⟨rfl, ?_, Or.inl (renderNat_ne_nil ip)⟩
    rw [List.all_eq_true]
    exact padDigits_digits d fr
  show (if ('.' : Char) = '.' ∧
      (padDigits d fr).all (fun c => c.isDigit) = true ∧
      (renderNat ip ≠ [] ∨ padDigits d fr ≠ []) then
    some ((digitsToNat (renderNat ip) : ℚ) +
      (digitsToNat (padDigits d fr) : ℚ) /
        (10 : ℚ) ^ (padDigits d fr).length)
  else none) = some q
  rw [if_pos hcond, hvalue]

/-! ### Scanning one rendered field -/

/-- One scanner step on a digit-headed input. -/
theorem tokenizeLoop_digit_head {c : Char} (hc : c.isDigit = true)
    (fuel line col : Nat) (acc : List Token) (cs : List Char) :
    tokenizeLoop (fuel + 1) line col acc (c :: cs) =
      match numLoop line col false [c] 0 cs with
      | .error e => .error e
      | .ok (t, d, rest) =>
          tokenizeLoop fuel line (col + d + 1) (t :: acc) rest := by
  have h1 : ¬ c = '\n' := isDigit_ne_nl hc
  have h2 : c.isWhitespace = false := isDigit_not_ws hc
  simp [tokenizeLoop, h1, h2, hc]

/-- One scanner step on an alphabetic-headed input. -/
theorem tokenizeLoop_alpha_head {c : Char} (hc : c.isAlpha = true)
    (fuel line col : Nat) (acc : List Token) (cs : List Char) :
    tokenizeLoop (fuel + 1) line col acc (c :: cs) =
      match identLoop line col [c] 0 cs with
      | (t, d, rest) => tokenizeLoop fuel line (col + d + 1) (t :: acc) rest := by
  have h1 : ¬ c = '\n' := isAlpha_ne_nl hc
  have h2 : c.isWhitespace = false := isAlpha_not_ws hc
  have h3 : c.isDigit = false := isAlpha_not_digit hc
  simp [tokenizeLoop, h1, h2, h3, hc]

/-- Scanning a rendered scalar value followed by a newline pushes the
scalar's token and the newline token. -/
theorem tokenizeLoop_value (v : CoolDataType) (hv : scalarOk v) :
    ∀ fuel line col acc rest,
      tokenizeLoop (fuel + 2) line col acc (valueChars v ++ '\n' :: rest) =
        tokenizeLoop fuel (line + 1) 1
          (⟨.Newline, ⟨1, line + 1⟩⟩ :: ⟨scalarTT v, ⟨col, line⟩⟩ :: acc) rest := by
  intro fuel line col acc rest
  cases v with
  | ObjectV fields => exact hv.elim
  | ListV elems => exact hv.elim
  | IntV n =>
      obtain ⟨hn0, hn1⟩ := hv
      have hichars : intChars n = renderNat n.toNat := by
        rw [intChars, if_neg (by omega)]
      obtain ⟨c, ds, hds⟩ := List.exists_cons_of_ne_nil (renderNat_ne_nil n.toNat)
      have hdigits : ∀ x ∈ renderNat n.toNat, x.isDigit = true :=
        renderNat_digits n.toNat
      have hc : c.isDigit = true := hdigits c (by rw [hds]; simp)
      have hdsd : ∀ x ∈ ds, x.isDigit = true := fun x hx =>
        hdigits x (by rw [hds]; simp [hx])
      have hchars : valueChars (.IntV n) ++ '\n' :: rest =
          c :: (ds ++ '\n' :: rest) := by
        show intChars n ++ '\n' :: rest = _
        rw [hichars, hds]
        simp
      rw [hchars, tokenizeLoop_digit_head hc (fuel + 1)]
      rw [numLoop_digits line col false ds [c] 0 ('\n' :: rest) hdsd, numLoop_nl]
      have htok : (⟨[c] ++ ds⟩ : String) = ⟨intChars n⟩ := by
        rw [hichars, hds]
        rfl
      show tokenizeLoop (fuel + 1) line (col + (0 + ds.length + 1) + 1)
          (⟨.IntTok ⟨[c] ++ ds⟩, ⟨col, line⟩⟩ :: acc) ('\n' :: rest) = _
      rw [htok]
      simp [tokenizeLoop, scalarTT]
  | FloatV q =>
      obtain ⟨h0, h1, h2⟩ := hv
      set d := q.den with hdd
      set N := (q * (10 : ℚ) ^ d).num.toNat with hN
      set ip := N / 10 ^ d with hip
      set fr := N % 10 ^ d with hfr
      have hfchars : floatChars q = renderNat ip ++ '.' :: padDigits d fr := by
        rw [floatChars, if_neg h1]
      obtain ⟨c, ds, hds⟩ := List.exists_cons_of_ne_nil (renderNat_ne_nil ip)
      have hdigits := renderNat_digits ip
      have hc : c.isDigit = true := hdigits c (by rw [hds]; simp)
      have hdsd : ∀ x ∈ ds, x.isDigit = true := fun x hx =>
        hdigits x (by rw [hds]; simp [hx])
      have hchars : valueChars (.FloatV q) ++ '\n' :: rest =
          c :: (ds ++ '.' :: (padDigits d fr ++ '\n' :: rest)) := by
        show floatChars q ++ '\n' :: rest = _
        rw [hfchars, hds]
        simp
      rw [hchars, tokenizeLoop_digit_head hc (fuel + 1)]
      rw [numLoop_digits line col false ds [c] 0
        ('.' :: (padDigits d fr ++ '\n' :: rest)) hdsd]
      rw [numLoop_dot]
      rw [numLoop_digits line col true (padDigits d fr) ([c] ++ ds ++ ['.'])
        (0 + ds.length + 1) ('\n' :: rest) (padDigits_digits d fr)]
      rw [numLoop_nl]
      have htok : (⟨[c] ++ ds ++ ['.'] ++ padDigits d fr⟩ : String) =
          ⟨floatChars q⟩ := by
        rw [hfchars, hds]
        simp
      show tokenizeLoop (fuel + 1) line _
          (⟨.FloatTok ⟨[c] ++ ds ++ ['.'] ++ padDigits d fr⟩, ⟨col, line⟩⟩ :: acc)
          ('\n' :: rest) = _
      rw [htok]
      simp [tokenizeLoop, scalarTT, hfchars]
  | StrV s =>
      have hplain : ∀ x ∈ s.data, plainChar x = true := hv
      have hesc : escapeChars s.data = s.data := escapeChars_plain s.data hplain
      have hchars : valueChars (.StrV s) ++ '\n' :: rest =
          '"' :: (s.data ++ '"' :: '\n' :: rest) := by
        show ('"' :: escapeChars s.data ++ ['"']) ++ '\n' :: rest = _
        rw [hesc]
        simp
      rw [hchars]
      have hstep : tokenizeLoop (fuel + 2) line col acc
          ('"' :: (s.data ++ '"' :: '\n' :: rest)) =
          match strLoop line col [] 0 (s.data ++ '"' :: '\n' :: rest) with
          | .error e => .error e
          | .ok (t, dd, r2) =>
              tokenizeLoop (fuel + 1) line (col + dd + 1) (t :: acc) r2 := by
        simp [tokenizeLoop]
      rw [hstep, strLoop_run line col s.data [] 0 ('\n' :: rest) hplain]
      have htok : (⟨[] ++ s.data⟩ : String) = s := by
        cases s
        rfl
      show tokenizeLoop (fuel + 1) line _
          (⟨.Str ⟨[] ++ s.data⟩, ⟨col, line⟩⟩ :: acc) ('\n' :: rest) = _
      rw [htok]
      simp [tokenizeLoop, scalarTT]

/-- One scanner step on a space. -/
theorem tokenizeLoop_space_head (fuel line col : Nat) (acc : List Token)
    (cs : List Char) :
    tokenizeLoop (fuel + 1) line col acc (' ' :: cs) =
      tokenizeLoop fuel line (col + 1) acc cs := by
  simp [tokenizeLoop]

/-- One scanner step on an equals sign. -/
theorem tokenizeLoop_equals_head (fuel line col : Nat) (acc : List Token)
    (cs : List Char) :
    tokenizeLoop (fuel + 1) line col acc ('=' :: cs) =
      tokenizeLoop fuel line (col + 1) (⟨.Equals, ⟨col, line⟩⟩ :: acc) cs := by
  simp [tokenizeLoop]

/-- Scanning one rendered `key = value` line: four tokens are pushed and
the scanner continues on the following line. -/
theorem tokenizeLoop_field (k : String) (v : CoolDataType) (hk : identOk k)
    (hv : scalarOk v) (fuel line : Nat) (acc : List Token) (rest : List Char) :
    tokenizeLoop (fuel + 6) line 1 acc
        (k.data ++ ' ' :: '=' :: ' ' :: (valueChars v ++ '\n' :: rest)) =
      tokenizeLoop fuel (line + 1) 1
        (⟨.Newline, ⟨1, line + 1⟩⟩ :: ⟨scalarTT v, ⟨k.length + 5, line⟩⟩ ::
          ⟨.Equals, ⟨k.length + 3, line⟩⟩ :: ⟨.Ident k, ⟨1, line⟩⟩ :: acc)
        rest := by
  obtain ⟨hne, hall⟩ := hk
  obtain ⟨c, ks, hks⟩ := List.exists_cons_of_ne_nil hne
  have hc : c.isAlpha = true := hall c (by rw [hks]; simp)
  have hksall : ∀ x ∈ ks, x.isAlpha = true := fun x hx =>
    hall x (by rw [hks]; simp [hx])
  have hklen : k.length = ks.length + 1 := by
    show k.data.length = ks.length + 1
    rw [hks]
    simp
  have hkmk : (⟨[c] ++ ks⟩ : String) = k := by
    cases k with
    | mk data =>
        simp at hks
        simp [hks]
  have h1 : tokenizeLoop (fuel + 6) line 1 acc
      (k.data ++ ' ' :: '=' :: ' ' :: (valueChars v ++ '\n' :: rest)) =
      tokenizeLoop (fuel + 5) line (k.length + 2)
        (⟨.Ident k, ⟨1, line⟩⟩ :: acc)
        (' ' :: '=' :: ' ' :: (valueChars v ++ '\n' :: rest)) := by
    rw [show fuel + 6 = (fuel + 5) + 1 from by omega, hks, List.cons_append]
    rw [tokenizeLoop_alpha_head hc]
    rw [identLoop_run line 1 ks [c] 0
      ('=' :: ' ' :: (valueChars v ++ '\n' :: rest)) hksall]
    show tokenizeLoop (fuel + 5) line (1 + (0 + ks.length + 1) + 1)
        (⟨.Ident ⟨[c] ++ ks⟩, ⟨1, line⟩⟩ :: acc) _ = _
    rw [hkmk, show 1 + (0 + ks.length + 1) + 1 = k.length + 2 from by omega]
  have h2 : tokenizeLoop (fuel + 5) line (k.length + 2)
      (⟨.Ident k, ⟨1, line⟩⟩ :: acc)
      (' ' :: '=' :: ' ' :: (valueChars v ++ '\n' :: rest)) =
      tokenizeLoop (fuel + 4) line (k.length + 3)
        (⟨.Ident k, ⟨1, line⟩⟩ :: acc)
        ('=' :: ' ' :: (valueChars v ++ '\n' :: rest)) := by
    rw [show fuel + 5 = (fuel + 4) + 1 from by omega, tokenizeLoop_space_head]
  have h3 : tokenizeLoop (fuel + 4) line (k.length + 3)
      (⟨.Ident k, ⟨1, line⟩⟩ :: acc)
      ('=' :: ' ' :: (valueChars v ++ '\n' :: rest)) =
      tokenizeLoop (fuel + 3) line (k.length + 4)
        (⟨.Equals, ⟨k.length + 3, line⟩⟩ :: ⟨.Ident k, ⟨1, line⟩⟩ :: acc)
        (' ' :: (valueChars v ++ '\n' :: rest)) := by
    rw [show fuel + 4 = (fuel + 3) + 1 from by omega, tokenizeLoop_equals_head]
  have h4 : tokenizeLoop (fuel + 3) line (k.length + 4)
      (⟨.Equals, ⟨k.length + 3, line⟩⟩ :: ⟨.Ident k, ⟨1, line⟩⟩ :: acc)
      (' ' :: (valueChars v ++ '\n' :: rest)) =
      tokenizeLoop (fuel + 2) line (k.length + 5)
        (⟨.Equals, ⟨k.length + 3, line⟩⟩ :: ⟨.Ident k, ⟨1, line⟩⟩ :: acc)
        (valueChars v ++ '\n' :: rest) := by
    rw [show fuel + 3 = (fuel + 2) + 1 from by omega, tokenizeLoop_space_head]
  rw [h1, h2, h3, h4,
    tokenizeLoop_value v hv fuel line (k.length + 5)
      (⟨.Equals, ⟨k.length + 3, line⟩⟩ :: ⟨.Ident k, ⟨1, line⟩⟩ :: acc) rest]

/-- Scanning a whole rendered flat scalar document yields exactly the
expected token sequence. -/
theorem tokenizeLoop_doc :
    ∀ o : CoolDataObject, docOk o → ∀ fuel line acc,
      tokenizeLoop (6 * o.length + (fuel + 1)) line 1 acc (objectChars o) =
        .ok (acc.reverse ++ docTokens line o) := by
  intro o
  induction o with
  | nil =>
      intro _ fuel line acc
      rw [show 6 * ([] : CoolDataObject).length + (fuel + 1) = fuel + 1 from by
        simp]
      simp [objectChars, tokenizeLoop, docTokens]
  | cons kv rest ih =>
      intro ho fuel line acc
      obtain ⟨k, v⟩ := kv
      have hkv : identOk k ∧ scalarOk v := ho.2 (k, v) (by simp)
      have htail : docOk rest := by
        refine ⟨?_, fun kv2 h2 => ho.2 kv2 (by simp [h2])⟩
        have := ho.1
        simp only [List.map_cons] at this
        exact (List.nodup_cons.mp this).2
      rw [show 6 * ((k, v) :: rest).length + (fuel + 1) =
        (6 * rest.length + (fuel + 1)) + 6 from by simp [List.length_cons]; omega]
      show tokenizeLoop ((6 * rest.length + (fuel + 1)) + 6) line 1 acc
        (k.data ++ ' ' :: '=' :: ' ' :: (valueChars v ++ '\n' :: objectChars rest)) =
        _
      rw [tokenizeLoop_field k v hkv.1 hkv.2 (6 * rest.length + (fuel + 1)) line
        acc (objectChars rest)]
      rw [ih htail fuel (line + 1)
        (⟨.Newline, ⟨1, line + 1⟩⟩ :: ⟨scalarTT v, ⟨k.length + 5, line⟩⟩ ::
          ⟨.Equals, ⟨k.length + 3, line⟩⟩ :: ⟨.Ident k, ⟨1, line⟩⟩ :: acc)]
      simp [docTokens]

/-- A rendered scalar value is at least one character. -/
theorem valueChars_ne_nil (v : CoolDataType) (hv : scalarOk v) :
    valueChars v ≠ [] := by
  cases v with
  | ObjectV fields => exact hv.elim
  | ListV elems => exact hv.elim
  | IntV n =>
      obtain ⟨hn0, _⟩ := hv
      show intChars n ≠ []
      rw [intChars, if_neg (by omega)]
      exact renderNat_ne_nil _
  | FloatV q =>
      obtain ⟨_, h1, _⟩ := hv
      show floatChars q ≠ []
      rw [floatChars, if_neg h1]
      simp
  | StrV s =>
      show '"' :: escapeChars s.data ++ ['"'] ≠ []
      simp

/-- Each rendered field occupies at least six characters. -/
theorem objectChars_length_ge :
    ∀ o : CoolDataObject, docOk o → 6 * o.length ≤ (objectChars o).length := by
  intro o
  induction o with
  | nil => intro _; simp [objectChars]
  | cons kv rest ih =>
      intro ho
      obtain ⟨k, v⟩ := kv
      have hkv : identOk k ∧ scalarOk v := ho.2 (k, v) (by simp)
      have htail : docOk rest := by
        refine ⟨?_, fun kv2 h2 => ho.2 kv2 (by simp [h2])⟩
        have := ho.1
        simp only [List.map_cons] at this
        exact (List.nodup_cons.mp this).2
      have h1 : 1 ≤ k.data.length := by
        have := hkv.1.1
        cases hd : k.data with
        | nil => exact absurd hd this
        | cons a b => simp
      have h2 : 1 ≤ (valueChars v).length := by
        have := valueChars_ne_nil v hkv.2
        cases hd : valueChars v with
        | nil => exact absurd hd this
        | cons a b => simp
      have := ih htail
      show 6 * (rest.length + 1) ≤
        (k.data ++ ' ' :: '=' :: ' ' :: (valueChars v ++ '\n' :: objectChars rest)).length
      simp only [List.length_append, List.length_cons]
      omega

/-- `tokenize` on a rendered flat scalar document. -/
theorem tokenize_renderDoc (o : CoolDataObject) (ho : docOk o) :
    tokenize (renderDoc o) = .ok (docTokens 1 o) := by
  have hge := objectChars_length_ge o ho
  have hdata : (renderDoc o).data = objectChars o := rfl
  rw [tokenize, hdata]
  rw [show (objectChars o).length + 1 =
    6 * o.length + (((objectChars o).length - 6 * o.length) + 1) from by omega]
  rw [tokenizeLoop_doc o ho ((objectChars o).length - 6 * o.length) 1 []]
  simp

/-! ### Parsing the rendered token sequence back -/

/-- `add_field` on a fresh key appends. -/
theorem addField_fresh {out : CoolDataObject} {k : String}
    (h : lookupField out k = none) (v : CoolDataType) :
    addField out k v = out ++ [(k, v)] := by
  simp [addField, h]

/-- Appending a differently-named field preserves absence. -/
theorem lookupField_append_none :
    ∀ (out : CoolDataObject) (key : String), lookupField out key = none →
      ∀ (k : String) (v : CoolDataType), k ≠ key →
        lookupField (out ++ [(k, v)]) key = none := by
  intro out
  induction out with
  | nil =>
      intro key _ k v hne
      show lookupField [(k, v)] key = none
      simp [lookupField, hne]
  | cons p out ih =>
      intro key h k v hne
      rw [List.cons_append, lookupField]
      rw [lookupField] at h
      by_cases hp : p.1 = key
      · rw [if_pos hp] at h
        exact absurd h (by simp)
      · rw [if_neg hp] at h
        rw [if_neg hp]
        exact ih key h k v hne

/-- The token text of a rendered in-range `i32` converts back to it. -/
theorem intValue_renderInt {n : ℤ} (h0 : 0 ≤ n) (h1 : n ≤ 2147483647) :
    intValue ⟨intChars n⟩ = .ok (.IntV n) := by
  have hichars : intChars n = renderNat n.toNat := by
    rw [intChars, if_neg (by omega)]
  have hle : n.toNat ≤ 2147483647 := by omega
  rw [hichars, intValue, intOfString_renderNat hle]
  rw [Int.toNat_of_nonneg h0]

/-- The token text of a rendered non-integral float converts back to
it. -/
theorem floatValue_renderFloat {q : ℚ} (h0 : 0 ≤ q) (h1 : q.den ≠ 1)
    (h2 : (q.den : Nat) ∣ 10 ^ q.den) :
    floatValue ⟨floatChars q⟩ = .ok (.FloatV q) := by
  rw [floatValue, floatOfString_floatChars h0 h1 h2]

/-- The rendered token sequence has four tokens per field. -/
theorem docTokens_length :
    ∀ (o : CoolDataObject) (line : Nat), (docTokens line o).length = 4 * o.length := by
  intro o
  induction o with
  | nil => intro line; simp [docTokens]
  | cons kv rest ih =>
      intro line
      obtain ⟨k, v⟩ := kv
      rw [docTokens]
      simp [ih (line + 1), List.length_cons]
      omega

/-- Parsing the rendered token sequence rebuilds exactly the original
flat scalar object. -/
theorem parseTopLoop_doc :
    ∀ o : CoolDataObject, docOk o → ∀ line fuel out,
      (∀ kv ∈ o, lookupField out kv.1 = none) →
      parseTopLoop (2 * o.length + (fuel + 1)) out (docTokens line o) =
        .ok (out ++ o) := by
  intro o
  induction o with
  | nil =>
      intro _ line fuel out _
      rw [show 2 * ([] : CoolDataObject).length + (fuel + 1) = fuel + 1 from by
        simp]
      simp [docTokens, parseTopLoop]
  | cons kv rest ih =>
      intro ho line fuel out hfresh
      obtain ⟨k, v⟩ := kv
      have hkv : identOk k ∧ scalarOk v := ho.2 (k, v) (by simp)
      have htail : docOk rest := by
        refine ⟨?_, fun kv2 h2 => ho.2 kv2 (by simp [h2])⟩
        have := ho.1
        simp only [List.map_cons] at this
        exact (List.nodup_cons.mp this).2
      have hknotin : k ∉ rest.map Prod.fst := by
        have := ho.1
        simp only [List.map_cons] at this
        exact (List.nodup_cons.mp this).1
      have hfreshk : lookupField out k = none := hfresh (k, v) (by simp)
      have hfresh2 : ∀ kv2 ∈ rest, lookupField (out ++ [(k, v)]) kv2.1 = none := by
        intro kv2 h2
        refine lookupField_append_none out kv2.1 (hfresh kv2 (by simp [h2])) k v ?_
        intro heq
        exact hknotin (heq ▸ List.mem_map_of_mem Prod.fst h2)
      rw [show 2 * ((k, v) :: rest).length + (fuel + 1) =
        ((2 * rest.length + (fuel + 1)) + 1) + 1 from by
          simp [List.length_cons]; omega]
      rw [docTokens]
      have hcontinue :
          parseTopLoop (2 * rest.length + (fuel + 1)) (out ++ [(k, v)])
            (docTokens (line + 1) rest) = .ok ((out ++ [(k, v)]) ++ rest) :=
        ih htail (line + 1) fuel (out ++ [(k, v)]) hfresh2
      cases v with
      | ObjectV fields => exact hkv.2.elim
      | ListV elems => exact hkv.2.elim
      | IntV n =>
          obtain ⟨hn0, hn1⟩ := hkv.2
          have hval := intValue_renderInt hn0 hn1
          simp only [parseTopLoop, scalarTT, hval, addField_fresh hfreshk,
            hcontinue]
          simp
      | FloatV q =>
          obtain ⟨h0, h1, h2⟩ := hkv.2
          have hval := floatValue_renderFloat h0 h1 h2
          simp only [parseTopLoop, scalarTT, hval, addField_fresh hfreshk,
            hcontinue]
          simp
      | StrV s =>
          simp only [parseTopLoop, scalarTT, addField_fresh hfreshk, hcontinue]
          simp

/-- Claim C5 (amended): the round-trip law for flat scalar-only objects,
restricted as the counterexample forces.  For every flat object whose
keys are nonempty alphabetic identifiers without duplicates and whose
values are scalars the parser itself could have produced — `i32`-range
nonnegative integers, nonnegative floats with a finite decimal expansion
and a nonzero fractional part, and strings free of Debug-escaped
characters — rendering and re-parsing returns the object unchanged. -/
theorem claim5_roundtrip_amended (o : CoolDataObject) (ho : docOk o) :
    parse (renderDoc o) = .ok o := by
  have htok := tokenize_renderDoc o ho
  have hparse : parseTokens (docTokens 1 o) = .ok o := by
    rw [parseTokens, docTokens_length o 1]
    rw [show 4 * (4 * o.length) + 16 =
      2 * o.length + ((14 * o.length + 15) + 1) from by omega]
    have := parseTopLoop_doc o ho 1 (14 * o.length + 15) []
      (fun kv _ => rfl)
    simpa using this
  simp [parse, htok, hparse]

/-- Witness for the amended C5 on a concrete three-field object. -/
theorem claim5_roundtrip_amended_witness :
    parse (renderDoc [("a", CoolDataType.IntV 1),
        ("b", CoolDataType.FloatV (5 / 2)), ("c", CoolDataType.StrV "x")]) =
      .ok [("a", CoolDataType.IntV 1), ("b", CoolDataType.FloatV (5 / 2)),
        ("c", CoolDataType.StrV "x")] :=
  claim5_roundtrip_amended
    [("a", CoolDataType.IntV 1), ("b", CoolDataType.FloatV (5 / 2)),
      ("c", CoolDataType.StrV "x")] (by decide)

end Cool
